import Mathlib

/-!
Shallow embedding of the process-pipeline execution engine found in
`internal/gnoblib/exec.go` of the `gnob` build-orchestration library.

The embedding mirrors the Go source construct by construct:

* Go interface values `io.Writer` / `io.Reader` / `io.Closer` become the
  inductive types `Writer`, `Reader`, `Closer`; the Go type assertion
  `x.(io.Closer)` becomes `Writer.isCloser`.
* `cmdOptions` and the functional options (`WithStdout`, `WithEnvVars`,
  `WithStdoutJSONDecoder`, ...) become a record and functions on it.
  `map[string]string` is modelled as an association list with
  insert-with-override semantics.
* `exec.Cmd` becomes the record `Cmd`; `*Exec` with its `prev` back pointer
  becomes the inductive `Exec`.
* Sources of nondeterminism that live outside the library (the result of
  `cmd.Start()`, the result of `cmd.Wait()`, which branch of the `select`
  in `Wait` fires, the fds returned by `os.Pipe()`, `os.Environ()`,
  `json.Unmarshal`) are passed in explicitly as oracle parameters.
-/

namespace Gnob

/-- An `io.Writer` value that can sit in a stage's `Stdout`/`Stderr` field.
`buffer` is a caller-supplied `*bytes.Buffer` (identified by an id),
`fileW` a caller-opened `*os.File`, `pipeW` the write end of an `os.Pipe()`,
`internalStderr` the address of the owning stage's internal `stderr` buffer
(`&this.stderr`), and `multi a b` the Go `io.MultiWriter(a, b)`. -/
inductive Writer where
  | buffer (id : Nat)
  | fileW (id : Nat)
  | pipeW (id : Nat)
  | internalStderr
  | multi (a b : Writer)
  deriving DecidableEq, Repr

/-- The Go type assertion `w.(io.Closer)`: `*os.File` values (caller files and
pipe ends) implement `io.Closer`; `*bytes.Buffer` and the value returned by
`io.MultiWriter` do not. -/
def Writer.isCloser : Writer → Bool
  | .fileW _ => true
  | .pipeW _ => true
  | _ => false

/-- An `io.Reader` value that can sit in a stage's `Stdin` field.
`readerR` is a caller-supplied reader, `pipeR` the read end of an
`os.Pipe()`, `tee r w` the Go `io.TeeReader(r, w)`, and `execStdoutPipe` /
`execStderrPipe` the readers returned by `cmd.StdoutPipe()` /
`cmd.StderrPipe()`. -/
inductive Reader where
  | readerR (id : Nat)
  | pipeR (id : Nat)
  | tee (r : Reader) (w : Writer)
  | execStdoutPipe (id : Nat)
  | execStderrPipe (id : Nat)
  deriving DecidableEq, Repr

/-- An element of a stage's `closers []io.Closer` list. -/
inductive Closer where
  | ofWriter (w : Writer)
  | ofReader (r : Reader)
  deriving DecidableEq, Repr

/-- A `func()` stored in `onExit`.  `jsonDecode buf target` is the closure
registered by `WithStdoutJSONDecoder`: it runs `json.Unmarshal` on the
contents of capture buffer `buf` into the object `target`, discarding the
returned error (`_ = json.Unmarshal(buf.Bytes(), out)`).  `other` stands for
any other caller-supplied callback. -/
inductive Callback where
  | jsonDecode (buf : Nat) (target : Nat)
  | other (id : Nat)
  deriving DecidableEq, Repr

/-- The Go struct `cmdOptions`.  `envVars map[string]string` is modelled as an
association list whose keys are kept unique by `insertVar`. -/
structure cmdOptions where
  noInheritEnv : Bool := false
  envVars : List (String × String) := []
  workingDir : String := ""
  stdout : Option Writer := none
  stderr : Option Writer := none
  stdin : Option Reader := none
  onExit : List Callback := []
  deriving DecidableEq, Repr

/-- Go `ExecOption` / `ExecOptionFunc`: an option is a mutation of `cmdOptions`. -/
def ExecOption : Type := cmdOptions → cmdOptions

/-- Map insertion with override, the behaviour of `opts.envVars[k] = v` on a
Go map (modulo the unspecified iteration order, which the association list
fixes to insertion order). -/
def insertVar (m : List (String × String)) (k v : String) : List (String × String) :=
  match m with
  | [] => [(k, v)]
  | (k', v') :: rest => if k' = k then (k, v) :: rest else (k', v') :: insertVar rest k v

/-- Association-list lookup, `opts.envVars[k]`. -/
def lookupVar (m : List (String × String)) (k : String) : Option String :=
  match m with
  | [] => none
  | (k', v') :: rest => if k' = k then some v' else lookupVar rest k

/-- The `envVars` map that `WithEnvVars bindings` leaves in a zero
`cmdOptions`: the bindings inserted in order into an empty map. -/
def mergeVars (vars : List (String × String)) : List (String × String) :=
  vars.foldl (fun m kv => insertVar m kv.1 kv.2) []

namespace _cmd

/-- Go `Cmd.WithStdout`. -/
def WithStdout (w : Writer) : ExecOption := fun o => { o with stdout := some w }

/-- Go `Cmd.WithStderr`. -/
def WithStderr (w : Writer) : ExecOption := fun o => { o with stderr := some w }

/-- Go `Cmd.WithStdin`. -/
def WithStdin (r : Reader) : ExecOption := fun o => { o with stdin := some r }

/-- Go `Cmd.WithDir`. -/
def WithDir (d : String) : ExecOption := fun o => { o with workingDir := d }

/-- Go `Cmd.WithEnvVars`: merges the given bindings into `opts.envVars`,
overriding on key conflicts. -/
def WithEnvVars (env : List (String × String)) : ExecOption :=
  fun o => { o with envVars := env.foldl (fun m kv => insertVar m kv.1 kv.2) o.envVars }

/-- Go `Cmd.WithNoInheritEnv`. -/
def WithNoInheritEnv (b : Bool) : ExecOption := fun o => { o with noInheritEnv := b }

/-- Go `Cmd.ExecOptions`: applies a list of options in order. -/
def ExecOptions (opts : List ExecOption) : ExecOption :=
  fun o => opts.foldl (fun acc f => f acc) o

/-- Go `Cmd.WithStdoutJSONDecoder(out)`.  The Go constructor allocates a single
`bytes.Buffer` (`var buf bytes.Buffer`) *before* returning the option closure;
the closure captures `&buf`.  The parameter `buf : Nat` is the identity of
that one buffer, fixed at construction time, so applying the same option
value to several option records points all of them at the same buffer. -/
def WithStdoutJSONDecoder (buf : Nat) (out : Nat) : ExecOption :=
  fun o =>
    { o with
      stdout := some (.buffer buf)
      onExit := o.onExit ++ [.jsonDecode buf out] }

end _cmd

/-- The slice of `exec.Cmd` state the engine reads and writes:
`Path/Args`, `Dir`, `Env`, and the three standard streams. -/
structure Cmd where
  command : String
  args : List String
  dir : String := ""
  env : List String := []
  stdin : Option Reader := none
  stdout : Option Writer := none
  stderr : Option Writer := none
  deriving DecidableEq, Repr

/-- The Go struct `Exec`: the back pointer `prev`, the wrapped `exec.Cmd`,
the `closers` list, the `onExit` callbacks and the `exitCodes` slice
(assigned by `Wait`).  The per-stage `stderr bytes.Buffer` field is
represented by the distinguished writer `Writer.internalStderr`, which
denotes the owning stage's own buffer.  The `ctx` field is not carried: the
shared context is supplied to `Wait` as an oracle. -/
inductive Exec where
  | mk (prev : Option Exec) (cmd : Cmd) (closers : List Closer)
      (onExit : List Callback) (exitCodes : List Int)

/-- Field accessor `e.prev`. -/
def Exec.prev : Exec → Option Exec
  | .mk p _ _ _ _ => p

/-- Field accessor `e.cmd`. -/
def Exec.cmd : Exec → Cmd
  | .mk _ c _ _ _ => c

/-- Field accessor `e.closers`. -/
def Exec.closers : Exec → List Closer
  | .mk _ _ cl _ _ => cl

/-- Field accessor `e.onExit`. -/
def Exec.onExit : Exec → List Callback
  | .mk _ _ _ oe _ => oe

/-- Field accessor `e.exitCodes`. -/
def Exec.exitCodes : Exec → List Int
  | .mk _ _ _ _ ec => ec

namespace _cmd

/-- Go `Cmd.ExecOpt(ctx, opt, command, args...)`.  `osEnviron` is the oracle for
`os.Environ()`.  Applies the option set to a zero `cmdOptions`, then builds
the `exec.Cmd`: `Dir` from `workingDir`; `Env` computed as — start empty, if
`!noInheritEnv` append `os.Environ()`, then append one `k=v` string per
`envVars` binding; streams exactly as supplied.  Returns a Stage with no
predecessor carrying the option set's `onExit` callbacks. -/
def ExecOpt (opt : Option ExecOption) (osEnviron : List String)
    (command : String) (args : List String) : Exec :=
  let o : cmdOptions := match opt with
    | some f => f {}
    | none => {}
  let environ : List String :=
    (if !o.noInheritEnv then osEnviron else [])
      ++ o.envVars.map (fun kv => kv.1 ++ "=" ++ kv.2)
  Exec.mk none
    { command := command
      args := args
      dir := o.workingDir
      env := environ
      stdin := o.stdin
      stdout := o.stdout
      stderr := o.stderr }
    [] o.onExit []

end _cmd

/-- A stage built by `ExecOpt` with the option set
`ExecOptions(WithEnvVars(vars), WithNoInheritEnv(noInh))` — the shape the
environment-merge property quantifies over. -/
def execWithEnv (osEnv : List String) (vars : List (String × String)) (noInh : Bool)
    (command : String) (args : List String) : Exec :=
  _cmd.ExecOpt
    (some (_cmd.ExecOptions [_cmd.WithEnvVars vars, _cmd.WithNoInheritEnv noInh]))
    osEnv command args

/-- Go `(*Exec).PipeOpt(opt, command, args...)`.  `pr`/`pw` are the fds handed
out by `os.Pipe()` (the error path panics in the source and is not
modelled).  When the predecessor's `cmd.Stdout` is set: the original
destination, if an `io.Closer`, is appended to the predecessor's closers,
then a fresh pipe is allocated, `pw` appended to the predecessor's closers,
the predecessor's stdout redirected to `pw`, and the successor's stdin wired
to `io.TeeReader(pr, old stdout)`; `pr` is appended to the closers of the
*intermediate* `next` Exec built by `ExecOpt`.  When unset, the successor's
stdin is `e.cmd.StdoutPipe()`, which internally sets `e.cmd.Stdout` to the
write end of a pipe that `exec.Cmd` closes itself.  In both branches the
function returns `&Exec{prev: e, ctx: e.ctx, cmd: next.cmd}` — a literal
that carries over neither `next.closers` nor `next.onExit`. -/
def Exec.PipeOpt (e : Exec) (opt : Option ExecOption) (osEnviron : List String)
    (pr pw : Nat) (command : String) (args : List String) : Exec :=
  let next := _cmd.ExecOpt opt osEnviron command args
  match e.cmd.stdout with
  | some w =>
      let eClosers := e.closers ++ (if w.isCloser then [Closer.ofWriter w] else [])
      let eClosers := eClosers ++ [Closer.ofWriter (.pipeW pw)]
      let e' := Exec.mk e.prev { e.cmd with stdout := some (.pipeW pw) }
        eClosers e.onExit e.exitCodes
      let tr := Reader.tee (.pipeR pr) w
      -- next.closers = append(next.closers, pr); next is then discarded, so the
      -- returned Exec starts with empty closers and onExit.
      Exec.mk (some e') { next.cmd with stdin := some tr } [] [] []
  | none =>
      let e' := Exec.mk e.prev { e.cmd with stdout := some (.pipeW pw) }
        e.closers e.onExit e.exitCodes
      Exec.mk (some e') { next.cmd with stdin := some (.pipeR pr) } [] [] []

/-- Go `(*Exec).Pipe`: `PipeOpt` with a nil option. -/
def Exec.Pipe (e : Exec) (osEnviron : List String) (pr pw : Nat)
    (command : String) (args : List String) : Exec :=
  e.PipeOpt none osEnviron pr pw command args

/-- Go `(*Exec).Pipe2Opt`: like `PipeOpt` but sourcing the predecessor's
standard error. -/
def Exec.Pipe2Opt (e : Exec) (opt : Option ExecOption) (osEnviron : List String)
    (pr pw : Nat) (command : String) (args : List String) : Exec :=
  let next := _cmd.ExecOpt opt osEnviron command args
  match e.cmd.stderr with
  | some w =>
      let eClosers := e.closers ++ (if w.isCloser then [Closer.ofWriter w] else [])
      let eClosers := eClosers ++ [Closer.ofWriter (.pipeW pw)]
      let e' := Exec.mk e.prev { e.cmd with stderr := some (.pipeW pw) }
        eClosers e.onExit e.exitCodes
      let tr := Reader.tee (.pipeR pr) w
      Exec.mk (some e') { next.cmd with stdin := some tr } [] [] []
  | none =>
      let e' := Exec.mk e.prev { e.cmd with stderr := some (.pipeW pw) }
        e.closers e.onExit e.exitCodes
      Exec.mk (some e') { next.cmd with stdin := some (.pipeR pr) } [] [] []

/-- Go `(*Exec).Pipe2`: `Pipe2Opt` with a nil option. -/
def Exec.Pipe2 (e : Exec) (osEnviron : List String) (pr pw : Nat)
    (command : String) (args : List String) : Exec :=
  e.Pipe2Opt none osEnviron pr pw command args

/-- The chain-collection loop `for this != nil { chain = append(chain, this);
this = this.prev }` shared by `Start` and `Wait`: the stages from the tail
handle to the head, tail first. -/
def Exec.chain : Exec → List Exec
  | .mk none c cl oe ec => [.mk none c cl oe ec]
  | .mk (some p) c cl oe ec => .mk (some p) c cl oe ec :: p.chain

/-! ## Start -/

/-- The stderr wiring at the top of `(*Exec).Start`: `this := e` and then, on
that one handle, `this.cmd.Stderr = &this.stderr` when unset, or
`io.MultiWriter(&this.stderr, e.cmd.Stderr)` when set.  The loop that walks
`prev` comes only afterwards, so only the tail stage is rewired. -/
def Exec.startWired (e : Exec) : Exec :=
  match e.cmd.stderr with
  | none =>
      Exec.mk e.prev { e.cmd with stderr := some .internalStderr }
        e.closers e.onExit e.exitCodes
  | some w =>
      Exec.mk e.prev { e.cmd with stderr := some (.multi .internalStderr w) }
        e.closers e.onExit e.exitCodes

/-- The spawn loop of `Start`, acting on the head-to-tail command list
(`for i := len(chain)-1; i >= 0; i--` over the tail-first slice).  `spawn` is
the oracle for `cmd.Start()`: `none` means success.  Returns the commands
that were started, in the order they were started, and the first error. -/
def startSpawn (spawn : Cmd → Option String) : List Cmd → List Cmd × Option String
  | [] => ([], none)
  | c :: rest =>
      match spawn c with
      | some err => ([], some err)
      | none =>
          let (started, r) := startSpawn spawn rest
          (c :: started, r)

/-- Go `(*Exec).Start`: wires the tail handle's stderr, collects the chain,
and starts each command head-to-tail, stopping at the first failure.
Returns the rewired chain handle, the started commands (in start order), and
the error returned to the caller. -/
def Exec.Start (e : Exec) (spawn : Cmd → Option String) :
    Exec × List Cmd × Option String :=
  let e' := e.startWired
  let (started, r) := startSpawn spawn ((e'.chain.map Exec.cmd).reverse)
  (e', started, r)

/-! ## Wait -/

/-- The result of `cmd.Wait()` for one stage: `success` is a nil error
(exit status 0), `exitErr code` an `*exec.ExitError` whose `ExitCode()` is
`code`, and `otherErr` any error that does not satisfy
`errors.As(err, &exitErr)` (for example an I/O error copying a stream). -/
inductive WaitResult where
  | success
  | exitErr (code : Int)
  | otherErr (id : Nat)
  deriving DecidableEq, Repr

/-- Go `cmd.Wait()`'s result for a process that exits with status `c`: nil for
status 0, an `ExitError` carrying `c` otherwise. -/
def statusOf (c : Int) : WaitResult :=
  if c = 0 then .success else .exitErr c

/-- The exit-code classification in `Wait`'s loop: a result matched by
`errors.As(err, &exitErr)` records `exitErr.ExitCode()`; every other result
(nil error, or a non-`ExitError` failure) records 0. -/
def resultCode : WaitResult → Int
  | .success => 0
  | .exitErr c => c
  | .otherErr _ => 0

/-- Whether the stage's `cmd.Wait()` error is non-nil (it is then collected
into `waitErrs`; `errors.Join` drops nils). -/
def resultIsErr : WaitResult → Bool
  | .success => false
  | .exitErr _ => true
  | .otherErr _ => true

/-- The outcome of one round of the `select` in `Wait`'s loop: either the
stage's worker goroutine delivered `cmd.Wait()`'s result on `errCh`, or
`e.ctx.Done()` fired first (`cerr` identifies `ctx.Err()`). -/
inductive WaitEvent where
  | done (r : WaitResult)
  | ctxDone (cerr : Nat)
  deriving DecidableEq, Repr

/-- What `Wait` reads from each stage. -/
structure StageW where
  closers : List Closer
  onExit : List Callback
  deriving Repr

/-- Aggregate outcome of the wait loop: `cancelled` when the context fired
during some stage's turn, `completed rs` with the per-stage `cmd.Wait()`
results in head-to-tail order otherwise. -/
inductive WaitOutcome where
  | cancelled (cerr : Nat)
  | completed (rs : List WaitResult)
  deriving DecidableEq, Repr

/-- The loop body of `(*Exec).Wait` over the head-to-tail stage list, with
`ev i` as the oracle for which `select` branch fires on the `i`-th processed
stage.  On `ctxDone` the function returns at once with the context's error;
on `done r` the stage's `onExit` callbacks run and its result is recorded.
The second component lists every callback that was run, in execution
order. -/
def waitGo (ev : Nat → WaitEvent) : List StageW → Nat → WaitOutcome × List Callback
  | [], _ => (.completed [], [])
  | s :: rest, i =>
      match ev i with
      | .ctxDone cerr => (.cancelled cerr, [])
      | .done r =>
          match waitGo ev rest (i + 1) with
          | (.cancelled cerr, ran) => (.cancelled cerr, s.onExit ++ ran)
          | (.completed rs, ran) => (.completed (r :: rs), s.onExit ++ ran)

/-- The error value `Wait` returns: nil (`none`), the context's error, or the
aggregate `fmt.Errorf("command failed (%v): %w\n%s", e.cmd.Args, ...)` built
from `errors.Join(waitErrs...)` (the `%s` part — the tail stage's captured
stderr text — is a runtime stream value and is not carried here). -/
inductive WaitError where
  | ctx (cerr : Nat)
  | cmdFailed (args : List String)
  deriving DecidableEq, Repr

/-- The head-to-tail list of per-stage wait data: `Wait` collects the chain
tail-first and then iterates it backwards. -/
def Exec.waitStages (e : Exec) : List StageW :=
  ((e.chain.map fun x => StageW.mk x.closers x.onExit)).reverse

/-- Go `(*Exec).Wait`: collects the chain, processes the stages head-to-tail,
and only after the loop finishes assigns `e.exitCodes` and joins the errors.
Returns the error, the updated chain handle, and the callbacks that ran. -/
def Exec.Wait (e : Exec) (ev : Nat → WaitEvent) :
    Option WaitError × Exec × List Callback :=
  match waitGo ev e.waitStages 0 with
  | (.cancelled cerr, ran) => (some (.ctx cerr), e, ran)
  | (.completed rs, ran) =>
      let e' := Exec.mk e.prev e.cmd e.closers e.onExit (rs.map resultCode)
      if rs.any resultIsErr then
        (some (.cmdFailed e.cmd.args), e', ran)
      else
        (none, e', ran)

/-- Go `(*Exec).ExitCode`: `-1` when `exitCodes` is empty, its last element
otherwise. -/
def Exec.ExitCode (e : Exec) : Int :=
  e.exitCodes.getLastD (-1)

/-- Go `(*Exec).ExitCodes`. -/
def Exec.ExitCodes (e : Exec) : List Int :=
  e.exitCodes

/-! ## Semantics of capture buffers and `onExit` callbacks -/

/-- Writing the string `s` to a writer, as a transformation of the capture
buffers' contents (a map from buffer id to accumulated string).  Writes to
pipe ends, files and the internal stderr buffer do not touch the capture
buffers; `io.MultiWriter` forwards to both writers. -/
def writeW (bufs : Nat → String) : Writer → String → Nat → String
  | .buffer id, s => fun b => if b = id then bufs b ++ s else bufs b
  | .multi a b, s => writeW (writeW bufs a s) b s
  | .fileW _, _ => bufs
  | .pipeW _, _ => bufs
  | .internalStderr, _ => bufs

/-- Running one `onExit` callback over the object store (`targets`, a map
from target-object id to its decoded value).  `dec` is the oracle for
`json.Unmarshal`: `some v` fills the target with `v`, `none` is a decode
error — which the Go closure discards (`_ = json.Unmarshal(...)`), leaving
the store unchanged and surfacing nothing. -/
def runCallback (dec : String → Option Nat) (bufs : Nat → String)
    (targets : Nat → Option Nat) : Callback → Nat → Option Nat
  | .jsonDecode buf tgt =>
      match dec (bufs buf) with
      | some v => fun t => if t = tgt then some v else targets t
      | none => targets
  | .other _ => targets

/-- Running a list of `onExit` callbacks in order. -/
def runCallbacks (dec : String → Option Nat) (bufs : Nat → String)
    (targets : Nat → Option Nat) : List Callback → Nat → Option Nat
  | [] => targets
  | cb :: rest => runCallbacks dec bufs (runCallback dec bufs targets cb) rest

/-- Composition of `Wait` with the effect of the callbacks it runs on the
target-object store.  The callbacks influence only the store: the code
discards `json.Unmarshal`'s error, so the error and exit codes come from
`Exec.Wait` alone. -/
def Exec.WaitFull (e : Exec) (ev : Nat → WaitEvent) (dec : String → Option Nat)
    (bufs : Nat → String) (targets : Nat → Option Nat) :
    Option WaitError × Exec × (Nat → Option Nat) :=
  match e.Wait ev with
  | (err, e', ran) => (err, e', runCallbacks dec bufs targets ran)

/-! ## Environment lookup -/

/-- Whether the environment entry `s` binds the key `k`, i.e. `s` starts
with `k=`.  Stated on the underlying character lists. -/
def envKeyMatches (k : String) (s : String) : Bool :=
  (k ++ "=").data.isPrefixOf s.data

/-- The entry that takes effect for key `k` in an environment list: the last
entry of the form `k=...` (Go's `os/exec` deduplicates `Env` keeping the
last occurrence). -/
def envEntry (environ : List String) (k : String) : Option String :=
  (environ.filter (envKeyMatches k)).getLast?

/-- The string an `onExit` callback hands to `json.Unmarshal`
(`buf.Bytes()`), given the capture buffers' contents; `none` for callbacks
that decode nothing. -/
def decodeInput (bufs : Nat → String) : Callback → Option String
  | .jsonDecode buf _ => some (bufs buf)
  | .other _ => none

/-! ## Concrete chains and oracles used by the witnesses -/

/-- Concrete two-stage chain for the C4 witness: `stage1 | stage2`. -/
def c4exec : Exec := (_cmd.ExecOpt none [] "stage1" []).Pipe [] 1 2 "stage2" []

/-- Wait events for the C4 witness: stage 1 exits 1, stage 2 exits 0. -/
def c4ev : Nat → WaitEvent := fun i => if i = 0 then .done (.exitErr 1) else .done .success

/-- Concrete two-stage chain for the C5 witness. -/
def c5exec : Exec := (_cmd.ExecOpt none [] "stage1" []).Pipe [] 1 2 "stage2" []

/-- Wait events for the C5 witness: stage 1 completes, then the context is
cancelled during stage 2's wait. -/
def c5ev : Nat → WaitEvent := fun i => if i = 0 then .done .success else .ctxDone 3

/-- Concrete chain for the C9 witness: cancellation during the very first
stage's wait. -/
def c9exec : Exec := (_cmd.ExecOpt none [] "stage1" []).Pipe [] 1 2 "stage2" []

/-- Events for the C9 witness. -/
def c9ev : Nat → WaitEvent := fun _ => .ctxDone 7

/-- Concrete chain `ok1 | bad | ok2` for the C6 witness. -/
def c6exec : Exec :=
  ((_cmd.ExecOpt none [] "ok1" []).Pipe [] 1 2 "bad" []).Pipe [] 3 4 "ok2" []

/-- Head-to-tail command list of the C6 witness chain as `start()` sees it. -/
def c6cmds : List Cmd := (c6exec.startWired.chain.map Exec.cmd).reverse

/-- Spawn oracle for the C6 witness: only the binary `bad` is missing. -/
def c6spawn : Cmd → Option String :=
  fun c => if c.command = "bad" then some "executable not found" else none

/-- Two-stage chain for the C3 counterexample. -/
def c3exec : Exec := (_cmd.ExecOpt none [] "producer" []).Pipe [] 1 2 "consumer" []

/-- Predecessor with a caller-supplied closing stdout destination. -/
def c1pred : Exec := _cmd.ExecOpt (some (_cmd.WithStdout (.fileW 7))) [] "producer" []

/-- The successor returned by `PipeOpt` on that predecessor, pipe fds
`pr = 5`, `pw = 6`. -/
def c1succ : Exec := c1pred.PipeOpt none [] 5 6 "consumer" []

/-- The stderr-sourced variant for `Pipe2Opt`. -/
def c1pred2 : Exec := _cmd.ExecOpt (some (_cmd.WithStderr (.fileW 8))) [] "producer" []

/-- The successor returned by `Pipe2Opt`, pipe fds `pr = 5`, `pw = 6`. -/
def c1succ2 : Exec := c1pred2.Pipe2Opt none [] 5 6 "consumer" []

/-- The JSON-decoder option for the C2 failing input (capture buffer 0,
target object 0). -/
def c2opt : ExecOption := _cmd.WithStdoutJSONDecoder 0 0

/-- The piped stage of the C2 failing input, as in the repository's own
example `cat example.json | jq` with a decoder on the `jq` stage. -/
def c2piped : Exec :=
  (_cmd.ExecOpt none [] "cat" ["example.json"]).PipeOpt (some c2opt) [] 1 2 "jq" ["."]

/-! ## Lemmas about the wait loop -/

/-- When the worker goroutine of every stage delivers its result before the
context fires, the wait loop completes with exactly those results and runs
every stage's `onExit` callbacks in head-to-tail order. -/
theorem waitGo_all_done (ev : Nat → WaitEvent) (stages : List StageW) :
    ∀ (i : Nat) (rs : List WaitResult),
      rs.length = stages.length →
      (∀ j, j < stages.length → ev (i + j) = .done (rs.getD j .success)) →
      waitGo ev stages i = (.completed rs, (stages.map StageW.onExit).flatten) := by
  induction stages with
  | nil =>
      intro i rs hlen hev
      cases rs with
      | nil => simp [waitGo]
      | cons r rs' => simp at hlen
  | cons s rest ih =>
      intro i rs hlen hev
      cases rs with
      | nil => simp at hlen
      | cons r rs' =>
        have h0 : ev i = .done r := by simpa using hev 0 (by simp)
        have hrec := ih (i + 1) rs' (by simpa using hlen)
          (fun j hj => by
            have h := hev (j + 1) (by simpa using Nat.succ_lt_succ hj)
            rw [show i + 1 + j = i + (j + 1) by omega]
            simpa using h)
        simp [waitGo, h0, hrec]

/-- When the context fires while stage `k` (0-based, head-to-tail) is being
waited on, the loop returns the context's error having run only the `onExit`
callbacks of the `k` stages already completed. -/
theorem waitGo_cancel (ev : Nat → WaitEvent) (stages : List StageW) :
    ∀ (i k cerr : Nat),
      k < stages.length →
      (∀ j, j < k → ∃ r, ev (i + j) = .done r) →
      ev (i + k) = .ctxDone cerr →
      waitGo ev stages i
        = (.cancelled cerr, ((stages.take k).map StageW.onExit).flatten) := by
  induction stages with
  | nil => intro i k cerr hk _ _; simp at hk
  | cons s rest ih =>
      intro i k cerr hk hdone hc
      cases k with
      | zero =>
          have h0 : ev i = .ctxDone cerr := by simpa using hc
          simp [waitGo, h0]
      | succ k' =>
          obtain ⟨r, hr⟩ := hdone 0 (Nat.succ_pos _)
          have h0 : ev i = .done r := by simpa using hr
          have hrec := ih (i + 1) k' cerr (by simpa using Nat.lt_of_succ_lt_succ hk)
            (fun j hj => by
              obtain ⟨r', hr'⟩ := hdone (j + 1) (Nat.succ_lt_succ hj)
              exact ⟨r', by rw [show i + 1 + j = i + (j + 1) by omega]; exact hr'⟩)
            (by rw [show i + 1 + k' = i + (k' + 1) by omega]; exact hc)
          simp [waitGo, h0, hrec]

/-- Applying `resultCode` to the result of a process that exits with status
`c` recovers `c`. -/
theorem resultCode_statusOf (c : Int) : resultCode (statusOf c) = c := by
  by_cases h : c = 0 <;> simp [statusOf, resultCode, h]

/-- A status result is an error exactly when the status is non-zero. -/
theorem resultIsErr_statusOf (c : Int) : resultIsErr (statusOf c) = decide (c ≠ 0) := by
  by_cases h : c = 0 <;> simp [statusOf, resultIsErr, h]

/-- A run of `onExit` callbacks under an always-failing `json.Unmarshal`
leaves every target object untouched. -/
theorem runCallbacks_none (bufs : Nat → String) :
    ∀ (cbs : List Callback) (targets : Nat → Option Nat),
      runCallbacks (fun _ => none) bufs targets cbs = targets := by
  intro cbs
  induction cbs with
  | nil => intro targets; rfl
  | cons cb rest ih =>
      intro targets
      have hcb : runCallback (fun _ => none) bufs targets cb = targets := by
        cases cb <;> simp [runCallback]
      rw [runCallbacks, hcb, ih]

/-- The head-to-tail wait list has one entry per stage of the chain. -/
theorem waitStages_length (e : Exec) : e.waitStages.length = e.chain.length := by
  simp [Exec.waitStages]

/-- Under the hypothesis that every stage merely exited with some status,
the wait loop collected an error exactly when some recorded code is
non-zero. -/
theorem any_isErr_iff_code_ne_zero (rs : List WaitResult)
    (hexit : ∀ r ∈ rs, ∃ c, r = statusOf c) :
    rs.any resultIsErr = true ↔ ∃ c ∈ rs.map resultCode, c ≠ 0 := by
  simp only [List.any_eq_true, List.mem_map]
  constructor
  · rintro ⟨r, hr, herr⟩
    obtain ⟨c, rfl⟩ := hexit r hr
    refine ⟨c, ⟨statusOf c, hr, resultCode_statusOf c⟩, fun h0 => ?_⟩
    subst h0
    simp [statusOf, resultIsErr] at herr
  · rintro ⟨c, ⟨r, hr, hcode⟩, hne⟩
    refine ⟨r, hr, ?_⟩
    obtain ⟨c', rfl⟩ := hexit r hr
    rw [resultCode_statusOf] at hcode
    subst hcode
    rw [resultIsErr_statusOf]
    simpa using hne

/-! ## Claim theorems: the wait phase (C4, C5, C8, C9) -/

/-- C4: for a chain whose stages' workers all complete (stage `k` delivering
`cmd.Wait()` result `rs[k]`, head-to-tail), `exitCodes()` returns the
per-stage codes in head-to-tail order; a failure that is not an exit-status
failure is recorded as exit code zero; and when every stage exited with a
status, `wait()` returns a non-nil error iff some recorded code is
non-zero. -/
theorem C4_exit_code_aggregation (e : Exec) (ev : Nat → WaitEvent)
    (rs : List WaitResult)
    (hlen : rs.length = e.chain.length)
    (hev : ∀ j, j < rs.length → ev j = .done (rs.getD j .success)) :
    (e.Wait ev).2.1.ExitCodes = rs.map resultCode
    ∧ (∀ id, resultCode (.otherErr id) = 0)
    ∧ ((∀ r ∈ rs, ∃ c, r = statusOf c) →
        ((e.Wait ev).1.isSome ↔ ∃ c ∈ rs.map resultCode, c ≠ 0)) := by
  have hlen' : rs.length = e.waitStages.length := by rw [hlen, waitStages_length]
  have hgo := waitGo_all_done ev e.waitStages 0 rs hlen'
    (fun j hj => by simpa using hev j (by rwa [hlen'] ))
  refine ⟨?_, fun id => rfl, fun hexit => ?_⟩
  · by_cases hany : rs.any resultIsErr <;>
      simp [Exec.Wait, hgo, hany, Exec.ExitCodes, Exec.exitCodes]
  · rw [← any_isErr_iff_code_ne_zero rs hexit]
    by_cases hany : rs.any resultIsErr <;>
      simp [Exec.Wait, hgo, hany]

/-- Witness for C4 at the chain `stage1 | stage2` with exit statuses 1 and
0: `exitCodes()` is `[1, 0]` and `wait()` errors. -/
theorem C4_exit_code_aggregation_witness :
    (c4exec.Wait c4ev).2.1.ExitCodes = [1, 0]
    ∧ ((c4exec.Wait c4ev).1.isSome ↔ ∃ c ∈ [(1 : Int), 0], c ≠ 0) := by
  have h := C4_exit_code_aggregation c4exec c4ev [.exitErr 1, .success]
    (by decide)
    (fun j hj => by
      match j with
      | 0 => rfl
      | 1 => rfl
      | j + 2 => simp only [List.length_cons, List.length_nil] at hj; omega)
  refine ⟨h.1, ?_⟩
  have h2 := h.2.2 (by
    intro r hr
    simp only [List.mem_cons, List.not_mem_nil, or_false] at hr
    rcases hr with rfl | rfl
    · exact ⟨1, by decide⟩
    · exact ⟨0, by decide⟩)
  exact h2

/-- C5: if every stage before position `k` completes but the shared context
fires during stage `k`'s wait, `wait()` returns the context's error, runs
only the `onExit` callbacks of the `k` completed stages, and — the chain
never having recorded exit codes — `exitCode()` stays at the sentinel -1. -/
theorem C5_cancellation_short_circuits_wait (e : Exec) (ev : Nat → WaitEvent)
    (k cerr : Nat)
    (hk : k < e.chain.length)
    (hdone : ∀ j, j < k → ∃ r, ev j = .done r)
    (hc : ev k = .ctxDone cerr)
    (hfresh : e.exitCodes = []) :
    (e.Wait ev).1 = some (.ctx cerr)
    ∧ (e.Wait ev).2.2 = ((e.waitStages.take k).map StageW.onExit).flatten
    ∧ (e.Wait ev).2.1.ExitCodes = []
    ∧ (e.Wait ev).2.1.ExitCode = -1 := by
  have hgo := waitGo_cancel ev e.waitStages 0 k cerr
    (by rwa [waitStages_length])
    (fun j hj => by simpa using hdone j hj)
    (by simpa using hc)
  refine ⟨by simp [Exec.Wait, hgo], by simp [Exec.Wait, hgo], ?_, ?_⟩
  · simp [Exec.Wait, hgo, Exec.ExitCodes, hfresh]
  · simp [Exec.Wait, hgo, Exec.ExitCode, hfresh]

/-- Witness for C5: cancelling during the second stage's wait returns the
context's error with no exit codes recorded. -/
theorem C5_cancellation_short_circuits_wait_witness :
    (c5exec.Wait c5ev).1 = some (.ctx 3)
    ∧ (c5exec.Wait c5ev).2.2 = ((c5exec.waitStages.take 1).map StageW.onExit).flatten
    ∧ (c5exec.Wait c5ev).2.1.ExitCodes = []
    ∧ (c5exec.Wait c5ev).2.1.ExitCode = -1 :=
  C5_cancellation_short_circuits_wait c5exec c5ev 1 3
    (by decide)
    (fun j hj => by
      match j with
      | 0 => exact ⟨.success, rfl⟩
      | j + 1 => exact absurd hj (by omega))
    (by decide)
    (by decide)

/-- C8: the post-exit JSON parse influences nothing observable but the
decoded object: the error returned by `wait()` and the recorded exit codes
are identical under any two `json.Unmarshal` behaviours, and an
always-failing parse leaves even the target objects untouched — the failure
is discarded without trace. -/
theorem C8_decode_failure_is_silent (e : Exec) (ev : Nat → WaitEvent)
    (dec₁ dec₂ : String → Option Nat) (bufs : Nat → String)
    (targets : Nat → Option Nat) :
    (e.WaitFull ev dec₁ bufs targets).1 = (e.WaitFull ev dec₂ bufs targets).1
    ∧ (e.WaitFull ev dec₁ bufs targets).2.1.ExitCodes
        = (e.WaitFull ev dec₂ bufs targets).2.1.ExitCodes
    ∧ (e.WaitFull ev (fun _ => none) bufs targets).2.2 = targets := by
  rcases hw : e.Wait ev with ⟨err, e', ran⟩
  refine ⟨by simp [Exec.WaitFull, hw], by simp [Exec.WaitFull, hw], ?_⟩
  simp [Exec.WaitFull, hw, runCallbacks_none]

/-- C9: whenever `wait()` returns early with the shared context's error, the
chain handle is bit-for-bit unchanged — in particular, on a chain that never
completed a wait, `exitCodes()` stays empty and `exitCode()` stays -1. -/
theorem C9_cancelled_wait_leaves_exit_codes_unassigned (e : Exec)
    (ev : Nat → WaitEvent) (cerr : Nat)
    (h : (e.Wait ev).1 = some (.ctx cerr)) :
    (e.Wait ev).2.1 = e
    ∧ (e.exitCodes = [] →
        (e.Wait ev).2.1.ExitCodes = [] ∧ (e.Wait ev).2.1.ExitCode = -1) := by
  rcases hw : waitGo ev e.waitStages 0 with ⟨out, ran⟩
  cases out with
  | cancelled cerr' =>
      refine ⟨by simp [Exec.Wait, hw], fun hfresh => ?_⟩
      constructor
      · simp [Exec.Wait, hw, Exec.ExitCodes, hfresh]
      · simp [Exec.Wait, hw, Exec.ExitCode, hfresh]
  | completed rs =>
      exfalso
      by_cases hany : rs.any resultIsErr <;> simp [Exec.Wait, hw, hany] at h

/-- Witness for C9: the cancelled wait hands back the chain handle
unchanged. -/
theorem C9_cancelled_wait_leaves_exit_codes_unassigned_witness :
    (c9exec.Wait c9ev).2.1 = c9exec
    ∧ ((c9exec.Wait c9ev).2.1.ExitCodes = [] ∧ (c9exec.Wait c9ev).2.1.ExitCode = -1) := by
  have h := C9_cancelled_wait_leaves_exit_codes_unassigned c9exec c9ev 7 (by decide)
  exact ⟨h.1, h.2 (by decide)⟩

/-! ## Claim theorems: the start phase (C3, C6) -/

/-- The spawn loop starts exactly the commands before the first failing one
and hands that failure back. -/
theorem startSpawn_stops_at_first_failure (spawn : Cmd → Option String) :
    ∀ (pre post : List Cmd) (bad : Cmd) (err : String),
      (∀ c ∈ pre, spawn c = none) → spawn bad = some err →
      startSpawn spawn (pre ++ bad :: post) = (pre, some err) := by
  intro pre
  induction pre with
  | nil =>
      intro post bad err _ hbad
      simp [startSpawn, hbad]
  | cons c cs ih =>
      intro post bad err hpre hbad
      have hc : spawn c = none := hpre c (by simp)
      have hrec := ih post bad err (fun c' hc' => hpre c' (by simp [hc'])) hbad
      simp [startSpawn, hc, hrec]

/-- C6: when the head-to-tail command sequence splits as
`pre ++ bad :: post` with every command of `pre` spawning fine and `bad`
failing to spawn, `start()` spawns exactly `pre` (in head-to-tail order),
returns `bad`'s error immediately, leaves `bad` and every later stage
un-spawned, and retracts none of `pre`. -/
theorem C6_start_spawns_head_to_tail_until_first_failure (e : Exec)
    (spawn : Cmd → Option String) (pre post : List Cmd) (bad : Cmd) (err : String)
    (hsplit : (e.startWired.chain.map Exec.cmd).reverse = pre ++ bad :: post)
    (hpre : ∀ c ∈ pre, spawn c = none)
    (hbad : spawn bad = some err) :
    (e.Start spawn).2.1 = pre ∧ (e.Start spawn).2.2 = some err := by
  have h := startSpawn_stops_at_first_failure spawn pre post bad err hpre hbad
  constructor <;> simp [Exec.Start, hsplit, h]

/-- Witness for C6: with the middle stage's binary missing, only the head
stage is spawned and its error is returned. -/
theorem C6_start_spawns_head_to_tail_until_first_failure_witness :
    (c6exec.Start c6spawn).2.1 = c6cmds.take 1
    ∧ (c6exec.Start c6spawn).2.2 = some "executable not found" :=
  C6_start_spawns_head_to_tail_until_first_failure c6exec c6spawn
    (c6cmds.take 1) (c6cmds.drop 2) (c6cmds.getD 1 { command := "", args := [] })
    "executable not found" (by decide) (by decide) (by decide)

/-- C3 counterexample: in a two-stage chain neither stage has a
caller-supplied stderr, yet after `start()` only the tail stage's stderr is
wired to its internal diagnostic buffer — the head stage's stderr is left
unset, so not every stage's stderr reaches a buffer. -/
theorem C3_counterexample_head_stderr_unwired :
    ((c3exec.Start (fun _ => none)).1.chain.map fun x => x.cmd.stderr)
      = [some .internalStderr, none] := by decide

/-- C3 amended: `start()` wires only the tail stage's stderr — to the
internal buffer alone when no caller-supplied stderr is present, and to a
fan-out over the buffer and the caller's destination otherwise; every
predecessor stage (and every other field of the tail) is left untouched. -/
theorem C3_amended_start_wires_only_tail_stderr (e : Exec)
    (spawn : Cmd → Option String) :
    ((e.Start spawn).1.cmd.stderr
      = some (match e.cmd.stderr with
        | none => .internalStderr
        | some w => .multi .internalStderr w))
    ∧ (e.Start spawn).1.prev = e.prev
    ∧ (e.Start spawn).1.cmd.stdout = e.cmd.stdout
    ∧ (e.Start spawn).1.cmd.stdin = e.cmd.stdin
    ∧ (e.Start spawn).1.closers = e.closers
    ∧ (e.Start spawn).1.onExit = e.onExit := by
  rcases e with ⟨p, c, cl, oe, ec⟩
  rcases hc : c.stderr with _ | w <;>
    simp [Exec.Start, Exec.startWired, hc, Exec.cmd, Exec.prev, Exec.closers,
      Exec.onExit, Exec.exitCodes]

/-! ## Claim theorems: chain linking (C1, C2, C10) -/

/-- C1, evaluated at the failing input: after `PipeOpt` (and `Pipe2Opt`) on
a predecessor whose output is already set to a closing destination, the
write end `pw = 6` and the original destination are indeed registered in the
predecessor's closer list — but the successor Stage actually returned owns
no closer at all: the read end `pr = 5` was appended only to the discarded
intermediate `next` Exec, so no stage ever closes it. -/
theorem C1_pipe_read_end_not_owned_by_returned_successor :
    c1succ.prev.map Exec.closers
      = some [.ofWriter (.fileW 7), .ofWriter (.pipeW 6)]
    ∧ c1succ.closers = []
    ∧ c1succ2.prev.map Exec.closers
      = some [.ofWriter (.fileW 8), .ofWriter (.pipeW 6)]
    ∧ c1succ2.closers = [] := by decide

/-- C2, evaluated at the failing input: the option set carries the decode
callback, and a head stage built by `ExecOpt` retains and runs it — but the
stage returned by `PipeOpt` retains no `onExit` callback at all, so `wait()`
runs nothing for it even though every process exits. -/
theorem C2_piped_stage_onExit_callbacks_dropped :
    (c2opt {}).onExit = [.jsonDecode 0 0]
    ∧ (_cmd.ExecOpt (some c2opt) [] "cat" ["example.json"]).onExit = [.jsonDecode 0 0]
    ∧ ((_cmd.ExecOpt (some c2opt) [] "cat" ["example.json"]).Wait
        (fun _ => .done .success)).2.2 = [.jsonDecode 0 0]
    ∧ c2piped.onExit = []
    ∧ (c2piped.Wait (fun _ => .done .success)).2.2 = [] := by decide

/-- C10: the buffer of `WithStdoutJSONDecoder` is allocated once, in the
constructor; applying the very same option value to two stages points both
stages' stdout at that single buffer `b`, registers on each the decode
callback reading `b`, and — once stage 1 has written `s1` and stage 2 has
written `s2` — each stage's callback hands the concatenation `s1 ++ s2` to
`json.Unmarshal`. -/
theorem C10_shared_decoder_buffer_concatenates (b tgt : Nat) (osEnv : List String)
    (cn1 cn2 : String) (a1 a2 : List String) (s1 s2 : String) :
    (_cmd.ExecOpt (some (_cmd.WithStdoutJSONDecoder b tgt)) osEnv cn1 a1).cmd.stdout
      = some (.buffer b)
    ∧ (_cmd.ExecOpt (some (_cmd.WithStdoutJSONDecoder b tgt)) osEnv cn2 a2).cmd.stdout
      = some (.buffer b)
    ∧ (_cmd.ExecOpt (some (_cmd.WithStdoutJSONDecoder b tgt)) osEnv cn1 a1).onExit
      = [.jsonDecode b tgt]
    ∧ (_cmd.ExecOpt (some (_cmd.WithStdoutJSONDecoder b tgt)) osEnv cn2 a2).onExit
      = [.jsonDecode b tgt]
    ∧ writeW (writeW (fun _ => "") (.buffer b) s1) (.buffer b) s2 b = s1 ++ s2
    ∧ ((_cmd.ExecOpt (some (_cmd.WithStdoutJSONDecoder b tgt)) osEnv cn1 a1).onExit
        ++ (_cmd.ExecOpt (some (_cmd.WithStdoutJSONDecoder b tgt)) osEnv cn2 a2).onExit).map
          (decodeInput (writeW (writeW (fun _ => "") (.buffer b) s1) (.buffer b) s2))
      = [some (s1 ++ s2), some (s1 ++ s2)] := by
  have hbuf : writeW (writeW (fun _ => "") (.buffer b) s1) (.buffer b) s2 b = s1 ++ s2 := by
    simp [writeW]
  have h1 : (_cmd.ExecOpt (some (_cmd.WithStdoutJSONDecoder b tgt)) osEnv cn1 a1).onExit
      = [.jsonDecode b tgt] := rfl
  have h2 : (_cmd.ExecOpt (some (_cmd.WithStdoutJSONDecoder b tgt)) osEnv cn2 a2).onExit
      = [.jsonDecode b tgt] := rfl
  refine ⟨rfl, rfl, h1, h2, hbuf, ?_⟩
  rw [h1, h2]
  simp [decodeInput, hbuf]

/-! ## Claim theorem: environment computation (C7) -/

/-- Splitting an environment entry at its separator is unambiguous when
neither candidate key contains the separator. -/
theorem key_eq_of_eq_append (a : List Char) :
    ∀ (c b d : List Char), ('=' : Char) ∉ a → ('=' : Char) ∉ c →
      a ++ '=' :: b = c ++ '=' :: d → a = c := by
  induction a with
  | nil =>
      intro c b d _ hc h
      cases c with
      | nil => rfl
      | cons x xs =>
          rw [List.nil_append, List.cons_append] at h
          injection h with h1 _
          exact absurd (h1 ▸ List.mem_cons_self x xs) hc
  | cons y ys ih =>
      intro c b d ha hc h
      cases c with
      | nil =>
          rw [List.cons_append, List.nil_append] at h
          injection h with h1 _
          exact absurd (h1 ▸ List.mem_cons_self y ys) ha
      | cons x xs =>
          rw [List.cons_append, List.cons_append] at h
          injection h with h1 h2
          have := ih xs b d (fun hm => ha (List.mem_cons_of_mem y hm))
            (fun hm => hc (List.mem_cons_of_mem x hm)) h2
          rw [h1, this]

/-- An entry `k'=v'` is picked up by a lookup for key `k` exactly when
`k = k'`, provided neither key contains `=`. -/
theorem envKeyMatches_fmt_iff (k k' v' : String)
    (hk : ('=' : Char) ∉ k.data) (hk' : ('=' : Char) ∉ k'.data) :
    envKeyMatches k (k' ++ "=" ++ v') = true ↔ k = k' := by
  unfold envKeyMatches
  rw [ List.isPrefixOf_iff_prefix]
  constructor
  · rintro ⟨t, ht⟩
    apply String.ext
    refine key_eq_of_eq_append k.data k'.data t v'.data hk hk' ?_
    simpa [show ("=" : String).data = ['='] from rfl, List.append_assoc] using ht
  · rintro rfl
    exact ⟨v'.data, by
      simp [show ("=" : String).data = ['='] from rfl, List.append_assoc]⟩

/-- A successful lookup exhibits a member of the association list. -/
theorem lookupVar_some_mem (m : List (String × String)) :
    ∀ (k v : String), lookupVar m k = some v → (k, v) ∈ m := by
  induction m with
  | nil => intro k v h; simp [lookupVar] at h
  | cons q rest ih =>
      obtain ⟨k', v'⟩ := q
      intro k v h
      rw [lookupVar] at h
      by_cases hq : k' = k
      · rw [if_pos hq] at h
        injection h with hv
        subst hq; subst hv
        exact List.mem_cons_self _ _
      · rw [if_neg hq] at h
        exact List.mem_cons_of_mem _ (ih k v h)

/-- Every key present after an insertion was present before or is the
inserted key. -/
theorem insertVar_keys_sub (k v : String) :
    ∀ (m : List (String × String)), ∀ p ∈ insertVar m k v,
      p.1 ∈ m.map Prod.fst ∨ p.1 = k := by
  intro m
  induction m with
  | nil =>
      intro p hp
      rw [insertVar] at hp
      simp only [List.mem_singleton] at hp
      simp [hp]
  | cons q rest ih =>
      obtain ⟨k', v'⟩ := q
      intro p hp
      rw [insertVar] at hp
      by_cases hq : k' = k
      · rw [if_pos hq] at hp
        rcases List.mem_cons.1 hp with rfl | hmem
        · simp
        · exact Or.inl (List.mem_map.2 ⟨p, List.mem_cons_of_mem _ hmem, rfl⟩)
      · rw [if_neg hq] at hp
        rcases List.mem_cons.1 hp with rfl | hmem
        · simp
        · rcases ih p hmem with h | h
          · exact Or.inl (by
              simp only [List.map_cons, List.mem_cons]
              exact Or.inr h)
          · exact Or.inr h

/-- Insertion preserves a property of all keys, provided the inserted key
has it. -/
theorem insertVar_keys_pred (P : String → Prop) (m : List (String × String))
    (k v : String) (hm : ∀ p ∈ m, P p.1) (hk : P k) :
    ∀ p ∈ insertVar m k v, P p.1 := by
  intro p hp
  rcases insertVar_keys_sub k v m p hp with h | h
  · rcases List.mem_map.1 h with ⟨q, hq, hq1⟩
    exact hq1 ▸ hm q hq
  · exact h ▸ hk

/-- Folding insertions preserves a property of all keys. -/
theorem foldl_insertVar_keys_pred (P : String → Prop)
    (vars : List (String × String)) :
    ∀ acc, (∀ p ∈ acc, P p.1) → (∀ p ∈ vars, P p.1) →
      ∀ p ∈ vars.foldl (fun m kv => insertVar m kv.1 kv.2) acc, P p.1 := by
  induction vars with
  | nil => intro acc hacc _; simpa using hacc
  | cons kv rest ih =>
      intro acc hacc hvars
      exact ih _ (insertVar_keys_pred P acc kv.1 kv.2 hacc (hvars kv (by simp)))
        (fun p hp => hvars p (by simp [hp]))

/-- Insertion keeps the keys duplicate-free. -/
theorem insertVar_keys_nodup (k v : String) :
    ∀ (m : List (String × String)), (m.map Prod.fst).Nodup →
      ((insertVar m k v).map Prod.fst).Nodup := by
  intro m
  induction m with
  | nil => intro _; simp [insertVar]
  | cons q rest ih =>
      obtain ⟨k', v'⟩ := q
      intro h
      simp only [List.map_cons, List.nodup_cons] at h
      by_cases hq : k' = k
      · subst hq
        rw [insertVar, if_pos rfl]
        simp only [List.map_cons, List.nodup_cons]
        exact h
      · rw [insertVar, if_neg hq]
        simp only [List.map_cons, List.nodup_cons]
        refine ⟨?_, ih h.2⟩
        intro hmem
        rcases List.mem_map.1 hmem with ⟨p, hp, hpk⟩
        rcases insertVar_keys_sub k v rest p hp with hin | hik
        · exact h.1 (hpk ▸ hin)
        · exact hq (by rw [← hpk, hik])

/-- Folding insertions keeps the keys duplicate-free. -/
theorem foldl_insertVar_keys_nodup (vars : List (String × String)) :
    ∀ acc : List (String × String), (acc.map Prod.fst).Nodup →
      ((vars.foldl (fun m kv => insertVar m kv.1 kv.2) acc).map Prod.fst).Nodup := by
  induction vars with
  | nil => intro acc h; simpa using h
  | cons kv rest ih => intro acc h; exact ih _ (insertVar_keys_nodup kv.1 kv.2 acc h)

/-- The merged `envVars` map has duplicate-free keys. -/
theorem mergeVars_keys_nodup (vars : List (String × String)) :
    ((mergeVars vars).map Prod.fst).Nodup :=
  foldl_insertVar_keys_nodup vars [] (by simp)

/-- A key absent from the map matches no formatted `KEY=VALUE` entry. -/
theorem filter_fmt_nil (k : String) (hk : ('=' : Char) ∉ k.data) :
    ∀ m : List (String × String), (∀ p ∈ m, ('=' : Char) ∉ p.1.data) →
      k ∉ m.map Prod.fst →
      (m.map (fun kv => kv.1 ++ "=" ++ kv.2)).filter (envKeyMatches k) = [] := by
  intro m
  induction m with
  | nil => intro _ _; rfl
  | cons q rest ih =>
      obtain ⟨k', v'⟩ := q
      intro hfree hmem
      have hne : k ≠ k' := fun h => hmem (by simp [h])
      have htest : envKeyMatches k (k' ++ "=" ++ v') = false := by
        cases hb : envKeyMatches k (k' ++ "=" ++ v') with
        | false => rfl
        | true =>
            exact absurd
              ((envKeyMatches_fmt_iff k k' v' hk (hfree (k', v') (by simp))).1 hb) hne
      simp only [List.map_cons, List.filter_cons, htest, Bool.false_eq_true, if_false]
      exact ih (fun p hp => hfree p (by simp [hp])) (fun hm => hmem (by simp [hm]))

/-- With duplicate-free, separator-free keys, the formatted entries matching
a bound key reduce to exactly its own `KEY=VALUE` entry. -/
theorem filter_fmt_single (k v : String) (hk : ('=' : Char) ∉ k.data) :
    ∀ m : List (String × String), (m.map Prod.fst).Nodup →
      (∀ p ∈ m, ('=' : Char) ∉ p.1.data) →
      lookupVar m k = some v →
      (m.map (fun kv => kv.1 ++ "=" ++ kv.2)).filter (envKeyMatches k)
        = [k ++ "=" ++ v] := by
  intro m
  induction m with
  | nil => intro _ _ h; simp [lookupVar] at h
  | cons q rest ih =>
      obtain ⟨k', v'⟩ := q
      intro hnd hfree hlk
      rw [lookupVar] at hlk
      simp only [List.map_cons, List.nodup_cons] at hnd
      by_cases hq : k' = k
      · subst hq
        rw [if_pos rfl] at hlk
        injection hlk with hv
        subst hv
        have htest : envKeyMatches k' (k' ++ "=" ++ v') = true :=
          (envKeyMatches_fmt_iff k' k' v' hk hk).2 rfl
        simp only [List.map_cons, List.filter_cons, htest, if_true]
        rw [filter_fmt_nil k' hk rest (fun p hp => hfree p (by simp [hp])) hnd.1]
      · rw [if_neg hq] at hlk
        have hne : k ≠ k' := fun h => hq h.symm
        have htest : envKeyMatches k (k' ++ "=" ++ v') = false := by
          cases hb : envKeyMatches k (k' ++ "=" ++ v') with
          | false => rfl
          | true =>
              exact absurd
                ((envKeyMatches_fmt_iff k k' v' hk (hfree (k', v') (by simp))).1 hb) hne
        simp only [List.map_cons, List.filter_cons, htest, Bool.false_eq_true, if_false]
        exact ih hnd.2 (fun p hp => hfree p (by simp [hp])) hlk

/-- C7: for a stage built by `ExecOpt` with `WithEnvVars(vars)` and
`WithNoInheritEnv(noInh)` (keys free of `=`), the environment handed to the
process starts empty, appends the caller's full environment unless
`noInh`, then appends one `KEY=VALUE` entry per merged binding; with
`noInh = true` it consists solely of those entries; and for every bound key
the entry in effect (the last match, as `os/exec` deduplicates) is the
`envVars` one — the bindings override inherited values. -/
theorem C7_environment_computation (osEnv : List String)
    (vars : List (String × String)) (noInh : Bool)
    (command : String) (args : List String)
    (hkeys : ∀ p ∈ vars, ('=' : Char) ∉ p.1.data) :
    ((execWithEnv osEnv vars noInh command args).cmd.env
      = (if noInh then [] else osEnv)
        ++ (mergeVars vars).map (fun kv => kv.1 ++ "=" ++ kv.2))
    ∧ (noInh = true →
        (execWithEnv osEnv vars noInh command args).cmd.env
          = (mergeVars vars).map (fun kv => kv.1 ++ "=" ++ kv.2))
    ∧ (∀ k v, lookupVar (mergeVars vars) k = some v →
        envEntry (execWithEnv osEnv vars noInh command args).cmd.env k
          = some (k ++ "=" ++ v)) := by
  have henv : (execWithEnv osEnv vars noInh command args).cmd.env
      = (if noInh then [] else osEnv)
        ++ (mergeVars vars).map (fun kv => kv.1 ++ "=" ++ kv.2) := by
    cases noInh <;> rfl
  refine ⟨henv, fun h => by subst h; rw [henv]; rfl, fun k v hlk => ?_⟩
  have hmerfree : ∀ p ∈ mergeVars vars, ('=' : Char) ∉ p.1.data := by
    have h := foldl_insertVar_keys_pred (fun s => ('=' : Char) ∉ s.data) vars []
      (by simp) hkeys
    simpa [mergeVars] using h
  have hkfree : ('=' : Char) ∉ k.data :=
    hmerfree (k, v) (lookupVar_some_mem (mergeVars vars) k v hlk)
  have hfilter := filter_fmt_single k v hkfree (mergeVars vars)
    (mergeVars_keys_nodup vars) hmerfree hlk
  rw [henv]
  unfold envEntry
  rw [List.filter_append, hfilter, List.getLast?_concat]

/-- Witness for C7: inherited `PATH=/bin` and a stale `X=0`, bindings
`X=1, Y=2`: the environment is the inherited part followed by the bindings,
and the entry in effect for `X` is `X=1`. -/
theorem C7_environment_computation_witness :
    (∀ p ∈ [("X", "1"), ("Y", "2")], ('=' : Char) ∉ p.1.data)
    ∧ (execWithEnv ["PATH=/bin", "X=0"] [("X", "1"), ("Y", "2")] false "c" []).cmd.env
        = ["PATH=/bin", "X=0", "X=1", "Y=2"]
    ∧ envEntry
        (execWithEnv ["PATH=/bin", "X=0"] [("X", "1"), ("Y", "2")] false "c" []).cmd.env
        "X" = some "X=1" := by
  have h := C7_environment_computation ["PATH=/bin", "X=0"] [("X", "1"), ("Y", "2")]
    false "c" [] (by decide)
  refine ⟨by decide, ?_, ?_⟩
  · exact h.1.trans (by decide)
  · exact (h.2.2 "X" "1" (by decide)).trans (by decide)

end Gnob
